import Mathlib

/-!
Verification of the fitness-tracker backend (Go, `main.go` middle revision and
`models.go`).  The record store is a global slice `fitnessRecords []FitnessData`;
the HTTP handlers are pure functions of that list plus the request data, so we
embed them as Lean functions over `List FitnessData`.  Go's `time.Parse` with
layout `2006-01-02`, `fmt.Sprintf` padding, and the year/month grouping of
`saveData` are embedded faithfully; network and file I/O are abstracted to the
data the code would write (path/content pairs for `saveData`, the JSON payload
for `updateGitHubFile`, the remote response for `getGitHubFileSHA`).
-/

/-- Go `float64` field values.  No operation in the repository computes with
these numbers (they are decoded, stored and re-encoded), so we embed a value by
its 64-bit pattern, which has decidable equality. -/
abbrev Float64 := UInt64

/-- `models.go`: `UserProfile`. -/
structure UserProfile where
  age : Int
  weightKg : Float64
  heightCm : Float64
  bmrKcal : Int
  tdeeMaintenanceKcal : Int
  targetLoseWeightKcal : Int
  targetProteinG : Int
  goalCalories : Int
  maintenanceProteinTargetG : Int
  deriving DecidableEq, Repr

/-- `models.go`: `FoodItem`. -/
structure FoodItem where
  time : String
  item : String
  calories : Int
  proteinG : Float64
  carbsG : Float64
  fatG : Float64
  deriving DecidableEq, Repr

/-- `models.go`: `ExerciseSummary`. -/
structure ExerciseSummary where
  totalBurnedCalories : Int
  status : String
  deriving DecidableEq, Repr

/-- `models.go`: `DailyTotalStats`. -/
structure DailyTotalStats where
  totalIntakeCalories : Int
  totalBurnedCalories : Int
  netCalories : Int
  totalProteinG : Float64
  totalCarbsG : Float64
  totalFatG : Float64
  proteinPerKg : Float64
  deriving DecidableEq, Repr

/-- `models.go`: `AIEvaluation`. -/
structure AIEvaluation where
  muscleMaintenance : String
  weightLossStatus : String
  recommendation : String
  deriving DecidableEq, Repr

/-- `models.go`: `FitnessData`, the daily record keyed by its `date` string. -/
structure FitnessData where
  date : String
  userProfile : UserProfile
  foodDiary : List FoodItem
  exerciseSummary : ExerciseSummary
  dailyTotalStats : DailyTotalStats
  aiEvaluation : AIEvaluation
  deriving DecidableEq, Repr

/-- The Go zero value of `UserProfile` (all numeric fields zero). -/
def zeroUserProfile : UserProfile :=
  { age := 0, weightKg := 0, heightCm := 0, bmrKcal := 0, tdeeMaintenanceKcal := 0,
    targetLoseWeightKcal := 0, targetProteinG := 0, goalCalories := 0,
    maintenanceProteinTargetG := 0 }

/-- The Go zero value of `ExerciseSummary`. -/
def zeroExerciseSummary : ExerciseSummary :=
  { totalBurnedCalories := 0, status := "" }

/-- The Go zero value of `DailyTotalStats`. -/
def zeroDailyTotalStats : DailyTotalStats :=
  { totalIntakeCalories := 0, totalBurnedCalories := 0, netCalories := 0,
    totalProteinG := 0, totalCarbsG := 0, totalFatG := 0, proteinPerKg := 0 }

/-- The Go zero value of `AIEvaluation`. -/
def zeroAIEvaluation : AIEvaluation :=
  { muscleMaintenance := "", weightLossStatus := "", recommendation := "" }

/-- The Go zero value of `FitnessData`: what `var data FitnessData` declares in
`createFitnessData` before (and, on a decode failure, after) `Decode` runs.
Its `date` is the empty string and its `foodDiary` the nil slice. -/
def zeroFitnessData : FitnessData :=
  { date := "", userProfile := zeroUserProfile, foodDiary := [],
    exerciseSummary := zeroExerciseSummary, dailyTotalStats := zeroDailyTotalStats,
    aiEvaluation := zeroAIEvaluation }

/-- The outcome a handler writes to the `http.ResponseWriter`: a single encoded
record, an encoded slice of records (Go encodes a nil slice as `null`, still a
success status), or `http.NotFound` (status 404). -/
inductive HttpResponse where
  | okRecord (r : FitnessData)
  | okRecords (rs : List FitnessData)
  | notFound
  deriving DecidableEq, Repr

/-- Numeric value of a decimal digit character. -/
def digitVal (c : Char) : Nat := c.toNat - '0'.toNat

/-- Leap-year rule used by Go's `time` package (proleptic Gregorian). -/
def isLeapYear (y : Nat) : Bool := y % 4 == 0 && (y % 100 != 0 || y % 400 == 0)

/-- Days in a month, as Go's `time` parser uses to validate the day field. -/
def daysIn (y m : Nat) : Nat :=
  if m == 2 then (if isLeapYear y then 29 else 28)
  else if m == 4 || m == 6 || m == 9 || m == 11 then 30
  else 31

/-- Go `time.Parse("2006-01-02", s)`: exactly four year digits, a dash, two
month digits, a dash, two day digits, nothing after; the month must be in
1..12 and the day in range for that month and year.  Returns the parsed
(year, month, day) or `none` on any parse error. -/
def parseDate (s : String) : Option (Nat × Nat × Nat) :=
  match s.toList with
  | [y1, y2, y3, y4, '-', m1, m2, '-', d1, d2] =>
    if y1.isDigit && y2.isDigit && y3.isDigit && y4.isDigit &&
       m1.isDigit && m2.isDigit && d1.isDigit && d2.isDigit then
      let y := ((digitVal y1 * 10 + digitVal y2) * 10 + digitVal y3) * 10 + digitVal y4
      let mo := digitVal m1 * 10 + digitVal m2
      let d := digitVal d1 * 10 + digitVal d2
      if 1 ≤ mo && mo ≤ 12 && 1 ≤ d && d ≤ daysIn y mo then some (y, mo, d)
      else none
    else none
  | _ => none

/-- Go `fmt.Sprintf("%02d", n)` for the month values produced by parsing. -/
def pad2 (n : Nat) : String := if n < 10 then "0" ++ toString n else toString n

/-- Go `strings.HasPrefix(s, pre)`, over the character sequences of the two
strings (for valid UTF-8 strings, byte-wise and character-wise prefix agree). -/
def hasPrefixStr (s pre : String) : Bool := pre.data.isPrefixOf s.data

/-- `createFitnessData`, lines 219-240: the loop scanning `fitnessRecords` for
the first record with the same date; it is replaced in place, otherwise the
new record is appended at the end. -/
def upsertByDate (records : List FitnessData) (data : FitnessData) : List FitnessData :=
  match records with
  | [] => [data]
  | r :: rest => if r.date = data.date then data :: rest else r :: upsertByDate rest data

/-- `createFitnessData` (POST `/api/fitness`): `var data FitnessData` is decoded
from the body with the `Decode` error discarded, so a body the decoder rejects
leaves the zero value in `data` (embedded as `decoded = none`).  The handler
then upserts, saves, and echoes `data` with a success status.  Returns the new
store together with the response. -/
def createFitnessData (records : List FitnessData) (decoded : Option FitnessData) :
    List FitnessData × HttpResponse :=
  let data := decoded.getD zeroFitnessData
  (upsertByDate records data, .okRecord data)

/-- `getFitnessDataByDate` (GET `/api/fitness/{date}`), lines 242-258: linear
scan for the first record whose date equals the path variable; `http.NotFound`
when none matches. -/
def getFitnessDataByDate (records : List FitnessData) (date : String) : HttpResponse :=
  match records with
  | [] => .notFound
  | r :: rest => if r.date = date then .okRecord r else getFitnessDataByDate rest date

/-- The accumulating loop shared by `getFitnessDataByYear` and
`getFitnessDataByMonth`: scan the store in order and append every record
satisfying the test to the result slice. -/
def appendLoop (p : FitnessData → Bool) (records : List FitnessData) : List FitnessData :=
  records.foldl (fun acc r => if p r then acc ++ [r] else acc) []

/-- `getFitnessDataByYear` (GET `/api/fitness/year/{year}`), lines 280-296:
collects the records whose date has the path variable as a string prefix
(`strings.HasPrefix(record.Date, year)`) and always encodes the resulting
slice with a success status. -/
def getFitnessDataByYear (records : List FitnessData) (year : String) : HttpResponse :=
  .okRecords (appendLoop (fun r => hasPrefixStr r.date year) records)

/-- The per-record test of `getFitnessDataByMonth`, lines 307-315: parse the
record's date (skipping it on error), then compare `fmt.Sprintf("%d", t.Year())`
with the year variable and `fmt.Sprintf("%02d", t.Month())` with the month
variable. -/
def monthMatches (year month : String) (r : FitnessData) : Bool :=
  match parseDate r.date with
  | none => false
  | some (y, mo, _) => toString y == year && pad2 mo == month

/-- `getFitnessDataByMonth` (GET `/api/fitness/year/{year}/month/{month}`),
lines 298-319: collects the records passing `monthMatches` and always encodes
the resulting slice with a success status. -/
def getFitnessDataByMonth (records : List FitnessData) (year month : String) : HttpResponse :=
  .okRecords (appendLoop (monthMatches year month) records)

/-- `const dataDir = "fitness_data"`. -/
def dataDir : String := "fitness_data"

/-- The year/month grouping key of `saveData`: the parsed year and month of the
record's own date, or `none` when `time.Parse` fails (the record is skipped by
`continue`). -/
def dateKey (r : FitnessData) : Option (Nat × Nat) :=
  (parseDate r.date).map (fun t => (t.1, t.2.1))

/-- One step of filling the Go map `grouped[key] = append(grouped[key], record)`:
append to the first entry holding the key, or create the entry. -/
def insertGrouped (m : List ((Nat × Nat) × List FitnessData)) (k : Nat × Nat)
    (r : FitnessData) : List ((Nat × Nat) × List FitnessData) :=
  match m with
  | [] => [(k, [r])]
  | (k', rs) :: rest =>
    if k' = k then (k', rs ++ [r]) :: rest else (k', rs) :: insertGrouped rest k r

/-- The grouping loop of `saveData`, lines 371-381: records whose date fails to
parse are skipped; the rest are appended, in store order, to the group of their
parsed (year, month).  The Go map is embedded as an association list, which
fixes one iteration order but the same per-key contents. -/
def groupByMonth (records : List FitnessData) : List ((Nat × Nat) × List FitnessData) :=
  records.foldl
    (fun acc r => match dateKey r with | none => acc | some k => insertGrouped acc k r) []

/-- The keys of the embedded Go map. -/
def groupKeys (m : List ((Nat × Nat) × List FitnessData)) : List (Nat × Nat) :=
  m.map Prod.fst

/-- The value the embedded Go map associates to a key (`[]` when absent, as
`grouped[key]` on a missing key yields the nil slice). -/
def groupValue (m : List ((Nat × Nat) × List FitnessData)) (k : Nat × Nat) :
    List FitnessData :=
  match m.find? (fun e => decide (e.1 = k)) with
  | some e => e.2
  | none => []

/-- The file path `saveData` writes a group to, lines 379-393 and 406:
`fmt.Sprintf("%d/%02d", t.Year(), t.Month())` split into year and month, giving
`fitness_data/<year>/<month>.json` with an unpadded decimal year and a
two-digit month (the same string is used for the local file and as the GitHub
content path). -/
def monthPath (k : Nat × Nat) : String :=
  dataDir ++ "/" ++ toString k.1 ++ "/" ++ pad2 k.2 ++ ".json"

/-- `saveData`, lines 369-410, as the list of (file path, file contents) pairs
it writes: one file per (year, month) group holding exactly that group's
records. -/
def saveData (records : List FitnessData) : List (String × List FitnessData) :=
  (groupByMonth records).map (fun e => (monthPath e.1, e.2))

/-- `getGitHubFileSHA`, lines 453-472: issue a GET for the path, return the
string `sha` field of the decoded response, and the empty string when the
request fails or the field is absent or not a string.  The remote is embedded
as the function from path to that optional string field. -/
def getGitHubFileSHA (remote : String → Option String) (filePath : String) : String :=
  (remote filePath).getD ""

/-- The RFC 4648 base64 alphabet used by Go's `base64.StdEncoding`. -/
def base64Alphabet : List Char :=
  "ABCDEFGHIJKLMNOPQRSTUVWXYZabcdefghijklmnopqrstuvwxyz0123456789+/".toList

/-- One output character of base64 encoding. -/
def base64Char (n : Nat) : Char := base64Alphabet.getD n 'A'

/-- Go `base64.StdEncoding.EncodeToString` on the marshalled bytes. -/
def base64Encode : List UInt8 → String
  | [] => ""
  | [a] =>
    String.mk [base64Char (a.toNat / 4), base64Char (a.toNat % 4 * 16), '=', '=']
  | [a, b] =>
    String.mk [base64Char (a.toNat / 4), base64Char (a.toNat % 4 * 16 + b.toNat / 16),
      base64Char (b.toNat % 16 * 4), '=']
  | a :: b :: c :: rest =>
    String.mk [base64Char (a.toNat / 4), base64Char (a.toNat % 4 * 16 + b.toNat / 16),
      base64Char (b.toNat % 16 * 4 + c.toNat / 64), base64Char (c.toNat % 64)] ++
    base64Encode rest

/-- The JSON body `updateGitHubFile` PUTs to the contents API: `message` and
`content` always, `sha` only when one was found for the path. -/
structure GitHubPutPayload where
  message : String
  content : String
  sha : Option String
  deriving DecidableEq, Repr

/-- `updateGitHubFile`, lines 412-451: no-op without a token; otherwise look up
the current SHA of the path and build the PUT payload, attaching the `sha`
field exactly when the lookup returned a non-empty string.  Returns the payload
sent, or `none` when the token is empty and nothing is sent. -/
def updateGitHubFile (token : String) (remote : String → Option String)
    (githubPath : String) (data : List UInt8) : Option GitHubPutPayload :=
  if token = "" then none
  else
    let sha := getGitHubFileSHA remote githubPath
    some { message := "Update " ++ githubPath,
           content := base64Encode data,
           sha := if sha ≠ "" then some sha else none }

/-- The data-model invariant of spec section 3: the store holds at most one
record per date, i.e. records at distinct positions carry distinct dates. -/
abbrev datesDistinct (records : List FitnessData) : Prop :=
  records.Pairwise (fun a b => a.date ≠ b.date)

/-- Claim-side reading of the month endpoint (from the spec words, for
comparison with `getFitnessDataByMonth`): the records whose date string begins
with the year-month string formed from the two path variables. -/
def yearMonthPrefixed (records : List FitnessData) (year month : String) :
    List FitnessData :=
  records.filter (fun r => hasPrefixStr r.date (year ++ "-" ++ month))

/-- Claim-side reading of the persistence path (from the spec words, for
comparison with `monthPath`): `dataDir/YYYY/MM.json` where `YYYY` and `MM` are
the year and month segments of the record's own `YYYY-MM-DD` date string. -/
def specMonthFilePath (r : FitnessData) : String :=
  dataDir ++ "/" ++ String.mk (r.date.data.take 4) ++ "/" ++
    String.mk ((r.date.data.drop 5).take 2) ++ ".json"

/-- Sample record for 2024-01-15 (the date used by the repository's own curl
test script). -/
def recJan15 : FitnessData := { zeroFitnessData with date := "2024-01-15" }

/-- A different record carrying the same date as `recJan15`. -/
def recJan15v2 : FitnessData :=
  { zeroFitnessData with
    date := "2024-01-15"
    exerciseSummary := { totalBurnedCalories := 300, status := "done" } }

/-- Sample record for a different date. -/
def recFeb02 : FitnessData := { zeroFitnessData with date := "2024-02-02" }

/-- A record whose date string starts with a valid year-month but whose day
field is not numeric, so `time.Parse` rejects it. -/
def recBadDay : FitnessData := { zeroFitnessData with date := "2024-01-xx" }

/-- A record with a parseable date whose year has leading zeros. -/
def recYear24 : FitnessData := { zeroFitnessData with date := "0024-01-05" }

/-! ## Helper lemmas about the upsert loop and the exact-date lookup -/

theorem upsert_length_of_exists (l : List FitnessData) (d : FitnessData)
    (h : ∃ x ∈ l, x.date = d.date) : (upsertByDate l d).length = l.length := by
  induction l with
  | nil => simp at h
  | cons r rest ih =>
    by_cases hr : r.date = d.date
    · simp [upsertByDate, hr]
    · obtain ⟨x, hx, hxd⟩ := h
      rcases List.mem_cons.mp hx with rfl | hx'
      · exact absurd hxd hr
      · simp [upsertByDate, hr, ih ⟨x, hx', hxd⟩]

theorem upsert_eq_append_of_forall (l : List FitnessData) (d : FitnessData)
    (h : ∀ x ∈ l, x.date ≠ d.date) : upsertByDate l d = l ++ [d] := by
  induction l with
  | nil => rfl
  | cons r rest ih =>
    have hr : r.date ≠ d.date := h r (List.mem_cons_self r rest)
    simp [upsertByDate, hr, ih (fun x hx => h x (List.mem_cons_of_mem r hx))]

theorem upsert_upsert_same_date (l : List FitnessData) (r1 r2 : FitnessData)
    (h : r1.date = r2.date) :
    upsertByDate (upsertByDate l r1) r2 = upsertByDate l r2 := by
  induction l with
  | nil => simp [upsertByDate, h]
  | cons r rest ih =>
    by_cases hr : r.date = r1.date
    · simp [upsertByDate, hr, h, hr.trans h]
    · have hr2 : r.date ≠ r2.date := fun hc => hr (hc.trans h.symm)
      simp [upsertByDate, hr, hr2, ih]

theorem mem_upsert (l : List FitnessData) (d x : FitnessData)
    (h : x ∈ upsertByDate l d) : x ∈ l ∨ x = d := by
  induction l with
  | nil => simpa [upsertByDate] using h
  | cons r rest ih =>
    by_cases hr : r.date = d.date
    · simp only [upsertByDate, if_pos hr] at h
      rcases List.mem_cons.mp h with rfl | hx
      · exact Or.inr rfl
      · exact Or.inl (List.mem_cons_of_mem r hx)
    · simp only [upsertByDate, if_neg hr] at h
      rcases List.mem_cons.mp h with rfl | hx
      · exact Or.inl (List.mem_cons_self x rest)
      · rcases ih hx with hx' | hx'
        · exact Or.inl (List.mem_cons_of_mem r hx')
        · exact Or.inr hx'

theorem upsert_datesDistinct (l : List FitnessData) (d : FitnessData)
    (h : datesDistinct l) : datesDistinct (upsertByDate l d) := by
  induction l with
  | nil => simp [upsertByDate, datesDistinct]
  | cons r rest ih =>
    rcases List.pairwise_cons.mp h with ⟨hr, hrest⟩
    by_cases hd : r.date = d.date
    · simp only [upsertByDate, if_pos hd]
      exact List.pairwise_cons.mpr ⟨fun b hb => hd ▸ hr b hb, hrest⟩
    · simp only [upsertByDate, if_neg hd]
      refine List.pairwise_cons.mpr ⟨fun b hb => ?_, ih hrest⟩
      rcases mem_upsert rest d b hb with hb' | rfl
      · exact hr b hb'
      · exact hd

theorem getByDate_upsert_self (l : List FitnessData) (r : FitnessData) :
    getFitnessDataByDate (upsertByDate l r) r.date = .okRecord r := by
  induction l with
  | nil => simp [upsertByDate, getFitnessDataByDate]
  | cons x rest ih =>
    by_cases hx : x.date = r.date
    · simp [upsertByDate, hx, getFitnessDataByDate]
    · simp [upsertByDate, hx, getFitnessDataByDate, ih]

theorem getByDate_eq_notFound_iff (l : List FitnessData) (date : String) :
    getFitnessDataByDate l date = .notFound ↔ ∀ r ∈ l, r.date ≠ date := by
  induction l with
  | nil => simp [getFitnessDataByDate]
  | cons r rest ih =>
    by_cases hr : r.date = date
    · simp [getFitnessDataByDate, hr]
    · simp [getFitnessDataByDate, hr, ih]

theorem getByDate_okRecord (l : List FitnessData) (date : String) (r : FitnessData)
    (h : getFitnessDataByDate l date = .okRecord r) : r ∈ l ∧ r.date = date := by
  induction l with
  | nil => simp [getFitnessDataByDate] at h
  | cons x rest ih =>
    by_cases hx : x.date = date
    · simp only [getFitnessDataByDate, if_pos hx, HttpResponse.okRecord.injEq] at h
      exact ⟨h ▸ List.mem_cons_self x rest, h ▸ hx⟩
    · simp only [getFitnessDataByDate, if_neg hx] at h
      obtain ⟨hm, hd⟩ := ih h
      exact ⟨List.mem_cons_of_mem x hm, hd⟩

theorem getByDate_exists_ok (l : List FitnessData) (date : String)
    (h : ∃ r ∈ l, r.date = date) :
    ∃ r, r ∈ l ∧ r.date = date ∧ getFitnessDataByDate l date = .okRecord r := by
  induction l with
  | nil => simp at h
  | cons x rest ih =>
    by_cases hx : x.date = date
    · exact ⟨x, List.mem_cons_self x rest, hx, by simp [getFitnessDataByDate, hx]⟩
    · obtain ⟨r, hr, hrd⟩ := h
      rcases List.mem_cons.mp hr with rfl | hr'
      · exact absurd hrd hx
      · obtain ⟨r', hm, hd, hget⟩ := ih ⟨r, hr', hrd⟩
        exact ⟨r', List.mem_cons_of_mem x hm, hd, by simp [getFitnessDataByDate, hx, hget]⟩

theorem appendLoop_foldl_aux (p : FitnessData → Bool) (l : List FitnessData)
    (acc : List FitnessData) :
    l.foldl (fun acc r => if p r then acc ++ [r] else acc) acc = acc ++ l.filter p := by
  induction l generalizing acc with
  | nil => simp
  | cons r rest ih =>
    by_cases hp : p r
    · simp [List.foldl_cons, hp, ih, List.filter_cons]
    · simp [List.foldl_cons, hp, ih, List.filter_cons]

theorem appendLoop_eq_filter (p : FitnessData → Bool) (l : List FitnessData) :
    appendLoop p l = l.filter p := by
  simpa using appendLoop_foldl_aux p l []

/-! ## Helper lemmas about the year/month grouping of saveData -/

theorem groupValue_insert_self (m : List ((Nat × Nat) × List FitnessData))
    (k : Nat × Nat) (r : FitnessData) :
    groupValue (insertGrouped m k r) k = groupValue m k ++ [r] := by
  induction m with
  | nil => simp [insertGrouped, groupValue, List.find?]
  | cons e rest ih =>
    obtain ⟨k', rs⟩ := e
    by_cases hk : k' = k
    · simp [insertGrouped, hk, groupValue, List.find?]
    · simp [insertGrouped, hk, groupValue, List.find?] at ih ⊢
      exact ih

theorem groupValue_insert_other (m : List ((Nat × Nat) × List FitnessData))
    (k k' : Nat × Nat) (r : FitnessData) (h : k' ≠ k) :
    groupValue (insertGrouped m k r) k' = groupValue m k' := by
  induction m with
  | nil => simp [insertGrouped, groupValue, List.find?, Ne.symm h]
  | cons e rest ih =>
    obtain ⟨k'', rs⟩ := e
    by_cases hk : k'' = k
    · subst hk
      simp [insertGrouped, groupValue, List.find?, Ne.symm h]
    · by_cases hk' : k'' = k'
      · subst hk'
        simp [insertGrouped, hk, groupValue, List.find?]
      · simp [insertGrouped, hk, groupValue, List.find?, hk'] at ih ⊢
        exact ih

theorem mem_groupKeys_insert (m : List ((Nat × Nat) × List FitnessData))
    (k k' : Nat × Nat) (r : FitnessData) :
    k' ∈ groupKeys (insertGrouped m k r) ↔ k' ∈ groupKeys m ∨ k' = k := by
  induction m with
  | nil => simp [insertGrouped, groupKeys]
  | cons e rest ih =>
    obtain ⟨k'', rs⟩ := e
    by_cases hk : k'' = k
    · subst hk
      by_cases hk' : k' = k'' <;> simp [insertGrouped, groupKeys, hk']
    · simp [insertGrouped, hk, groupKeys] at ih ⊢
      tauto

theorem groupKeys_insert_nodup (m : List ((Nat × Nat) × List FitnessData))
    (k : Nat × Nat) (r : FitnessData) (h : (groupKeys m).Nodup) :
    (groupKeys (insertGrouped m k r)).Nodup := by
  induction m with
  | nil => simp [insertGrouped, groupKeys]
  | cons e rest ih =>
    obtain ⟨k'', rs⟩ := e
    simp only [groupKeys, List.map_cons, List.nodup_cons] at h
    by_cases hk : k'' = k
    · subst hk
      simpa [insertGrouped, groupKeys] using h
    · have hmem : k'' ∉ groupKeys (insertGrouped rest k r) := by
        intro hm
        rcases (mem_groupKeys_insert rest k k'' r).mp hm with hm' | rfl
        · exact h.1 (by simpa [groupKeys] using hm')
        · exact hk rfl
      have h2 := ih (by simpa [groupKeys] using h.2)
      simp only [insertGrouped, if_neg hk, groupKeys, List.map_cons, List.nodup_cons]
      exact ⟨fun hm => hmem (by simpa [groupKeys] using hm), by simpa [groupKeys] using h2⟩

theorem groupValue_fold (records : List FitnessData)
    (acc : List ((Nat × Nat) × List FitnessData)) (k : Nat × Nat) :
    groupValue (records.foldl
      (fun acc r => match dateKey r with | none => acc | some k => insertGrouped acc k r) acc) k
    = groupValue acc k ++ records.filter (fun r => decide (dateKey r = some k)) := by
  induction records generalizing acc with
  | nil => simp
  | cons r rest ih =>
    simp only [List.foldl_cons, List.filter_cons]
    cases hdk : dateKey r with
    | none => simp [hdk, ih]
    | some k' =>
      by_cases hk : k' = k
      · subst hk
        simp [hdk, ih, groupValue_insert_self]
      · simp [hdk, hk, ih, groupValue_insert_other acc k' k r (Ne.symm hk)]

theorem mem_groupKeys_fold (records : List FitnessData)
    (acc : List ((Nat × Nat) × List FitnessData)) (k : Nat × Nat) :
    k ∈ groupKeys (records.foldl
      (fun acc r => match dateKey r with | none => acc | some k => insertGrouped acc k r) acc)
    ↔ k ∈ groupKeys acc ∨ ∃ r ∈ records, dateKey r = some k := by
  induction records generalizing acc with
  | nil => simp
  | cons r rest ih =>
    simp only [List.foldl_cons]
    cases hdk : dateKey r with
    | none =>
      simp only [hdk, ih, List.mem_cons]
      constructor
      · rintro (h | ⟨x, hx, hdx⟩)
        · exact Or.inl h
        · exact Or.inr ⟨x, Or.inr hx, hdx⟩
      · rintro (h | ⟨x, rfl | hx, hdx⟩)
        · exact Or.inl h
        · simp [hdk] at hdx
        · exact Or.inr ⟨x, hx, hdx⟩
    | some k' =>
      simp only [hdk, ih, mem_groupKeys_insert, List.mem_cons]
      constructor
      · rintro ((h | rfl) | ⟨x, hx, hdx⟩)
        · exact Or.inl h
        · exact Or.inr ⟨r, Or.inl rfl, hdk⟩
        · exact Or.inr ⟨x, Or.inr hx, hdx⟩
      · rintro (h | ⟨x, rfl | hx, hdx⟩)
        · exact Or.inl (Or.inl h)
        · rw [hdk] at hdx
          exact Or.inl (Or.inr (Option.some_injective _ hdx).symm)
        · exact Or.inr ⟨x, hx, hdx⟩

theorem groupKeys_fold_nodup (records : List FitnessData)
    (acc : List ((Nat × Nat) × List FitnessData)) (h : (groupKeys acc).Nodup) :
    (groupKeys (records.foldl
      (fun acc r => match dateKey r with | none => acc | some k => insertGrouped acc k r) acc)).Nodup := by
  induction records generalizing acc with
  | nil => exact h
  | cons r rest ih =>
    simp only [List.foldl_cons]
    cases hdk : dateKey r with
    | none => exact ih acc h
    | some k' => exact ih _ (groupKeys_insert_nodup acc k' r h)

theorem groupValue_of_mem (m : List ((Nat × Nat) × List FitnessData))
    (k : Nat × Nat) (v : List FitnessData)
    (hnd : (groupKeys m).Nodup) (h : (k, v) ∈ m) : groupValue m k = v := by
  induction m with
  | nil => simp at h
  | cons e rest ih =>
    obtain ⟨k', rs⟩ := e
    simp only [groupKeys, List.map_cons, List.nodup_cons] at hnd
    rcases List.mem_cons.mp h with heq | hmem
    · obtain ⟨rfl, rfl⟩ := Prod.mk.injEq .. ▸ heq
      simp_all [groupValue, List.find?]
    · have hk : k' ≠ k := by
        rintro rfl
        exact hnd.1 (by simpa [groupKeys] using List.mem_map_of_mem Prod.fst hmem)
      simp only [groupValue, List.find?, decide_eq_true_eq, hk, ite_false]
      simpa [groupValue] using ih hnd.2 hmem

theorem groupByMonth_value (records : List FitnessData) (k : Nat × Nat) :
    groupValue (groupByMonth records) k
    = records.filter (fun r => decide (dateKey r = some k)) := by
  simpa [groupValue] using groupValue_fold records [] k

theorem groupByMonth_keys (records : List FitnessData) (k : Nat × Nat) :
    k ∈ groupKeys (groupByMonth records) ↔ ∃ r ∈ records, dateKey r = some k := by
  simpa [groupKeys] using mem_groupKeys_fold records [] k

theorem groupByMonth_nodup (records : List FitnessData) :
    (groupKeys (groupByMonth records)).Nodup := by
  simpa [groupKeys] using groupKeys_fold_nodup records [] (by simp [groupKeys])

theorem groupByMonth_mem_eq_filter (records : List FitnessData) (k : Nat × Nat)
    (v : List FitnessData) (h : (k, v) ∈ groupByMonth records) :
    v = records.filter (fun r => decide (dateKey r = some k)) := by
  rw [← groupByMonth_value records k]
  exact (groupValue_of_mem _ k v (groupByMonth_nodup records) h).symm

theorem groupByMonth_mem_of_exists (records : List FitnessData) (k : Nat × Nat)
    (h : ∃ r ∈ records, dateKey r = some k) :
    (k, records.filter (fun r => decide (dateKey r = some k))) ∈ groupByMonth records := by
  have hk := (groupByMonth_keys records k).mpr h
  obtain ⟨e, he, hek⟩ := List.mem_map.mp hk
  have heq := groupByMonth_mem_eq_filter records e.1 e.2 (by simpa using he)
  have he' : e = (k, records.filter (fun r => decide (dateKey r = some k))) := by
    rw [← hek, Prod.ext_iff]
    exact ⟨rfl, heq⟩
  exact he' ▸ he

/-! ## Claims -/

/-- C1: POST `/api/fitness` upserts by date: when a stored record has the same
date as the posted record it is replaced in place (the store length is
unchanged); otherwise the posted record is appended at the end; consequently
posting r1 and then r2 with the same date leaves the store exactly as a single
post of r2 would. -/
theorem C1_post_upserts_by_date (l : List FitnessData) (r r1 r2 : FitnessData) :
    ((∃ x ∈ l, x.date = r.date) → (createFitnessData l (some r)).1.length = l.length) ∧
    ((∀ x ∈ l, x.date ≠ r.date) → (createFitnessData l (some r)).1 = l ++ [r]) ∧
    (r1.date = r2.date →
      (createFitnessData (createFitnessData l (some r1)).1 (some r2)).1
        = (createFitnessData l (some r2)).1) :=
  ⟨fun h => upsert_length_of_exists l r h,
   fun h => upsert_eq_append_of_forall l r h,
   fun h => upsert_upsert_same_date l r1 r2 h⟩

/-- C1 witness: the three statements at concrete stores and records. -/
theorem C1_post_upserts_by_date_witness :
    (createFitnessData [recJan15] (some recJan15v2)).1.length = [recJan15].length ∧
    (createFitnessData [recFeb02] (some recJan15)).1 = [recFeb02] ++ [recJan15] ∧
    (createFitnessData (createFitnessData [recFeb02] (some recJan15)).1 (some recJan15v2)).1
      = (createFitnessData [recFeb02] (some recJan15v2)).1 :=
  ⟨(C1_post_upserts_by_date [recJan15] recJan15v2 recJan15 recJan15v2).1
      ⟨recJan15, by decide, by decide⟩,
   (C1_post_upserts_by_date [recFeb02] recJan15 recJan15 recJan15v2).2.1 (by decide),
   (C1_post_upserts_by_date [recFeb02] recJan15 recJan15 recJan15v2).2.2 (by decide)⟩

/-- C2: a POST preserves the at-most-one-record-per-date invariant: if all
stored records have pairwise distinct dates before the write, they do after it,
whatever the request body decoded to. -/
theorem C2_post_preserves_distinct_dates (l : List FitnessData)
    (decoded : Option FitnessData) (h : datesDistinct l) :
    datesDistinct (createFitnessData l decoded).1 :=
  upsert_datesDistinct l (decoded.getD zeroFitnessData) h

/-- C2 witness: the invariant before and after a concrete overwrite. -/
theorem C2_post_preserves_distinct_dates_witness :
    datesDistinct (createFitnessData [recJan15, recFeb02] (some recJan15v2)).1 :=
  C2_post_preserves_distinct_dates [recJan15, recFeb02] (some recJan15v2) (by decide)

/-- C3: round trip: after POSTing record r, GET `/api/fitness/{date}` with r's
date returns exactly r, whether r's date was fresh or already stored. -/
theorem C3_store_then_retrieve (l : List FitnessData) (r : FitnessData) :
    getFitnessDataByDate (createFitnessData l (some r)).1 r.date = .okRecord r :=
  getByDate_upsert_self l r

/-- C4 counterexample: the year and year+month endpoints never answer
not-found; on a store holding only a 2024 record, asking for year 1999 returns
a success response carrying the empty list, not `http.NotFound` as the claim
states. -/
theorem C4_counterexample :
    getFitnessDataByYear [recJan15] "1999" = .okRecords [] ∧
    getFitnessDataByYear [recJan15] "1999" ≠ .notFound ∧
    getFitnessDataByMonth [recJan15] "1999" "01" = .okRecords [] ∧
    getFitnessDataByMonth [recJan15] "1999" "01" ≠ .notFound := by
  refine ⟨by decide, by decide, by decide, by decide⟩

/-- C4 amended: only the exact-date endpoint answers not-found, exactly when no
stored record has the requested date; when one does, a stored record with that
date is returned.  The year and year+month endpoints always answer with a
success response (the possibly empty filtered list). -/
theorem C4_amended_not_found_behaviour (records : List FitnessData)
    (date year month : String) :
    ((∀ r ∈ records, r.date ≠ date) → getFitnessDataByDate records date = .notFound) ∧
    ((∃ r ∈ records, r.date = date) →
      ∃ r, r ∈ records ∧ r.date = date ∧ getFitnessDataByDate records date = .okRecord r) ∧
    getFitnessDataByYear records year ≠ .notFound ∧
    getFitnessDataByMonth records year month ≠ .notFound :=
  ⟨fun h => (getByDate_eq_notFound_iff records date).mpr h,
   fun h => getByDate_exists_ok records date h,
   by simp [getFitnessDataByYear],
   by simp [getFitnessDataByMonth]⟩

/-- C4 amended witness: not-found on a missing date and success on a present
one, at a concrete store. -/
theorem C4_amended_not_found_behaviour_witness :
    getFitnessDataByDate [recJan15] "1999-01-01" = .notFound ∧
    (∃ r, r ∈ [recJan15] ∧ r.date = "2024-01-15" ∧
      getFitnessDataByDate [recJan15] "2024-01-15" = .okRecord r) :=
  ⟨(C4_amended_not_found_behaviour [recJan15] "1999-01-01" "1999" "01").1 (by decide),
   (C4_amended_not_found_behaviour [recJan15] "2024-01-15" "1999" "01").2.1
      ⟨recJan15, by decide, by decide⟩⟩

/-- C5: GET `/api/fitness/year/{year}` returns exactly the stored records whose
date string has the path variable as a prefix, in stored order. -/
theorem C5_year_endpoint_filters_by_date (records : List FitnessData) (year : String) :
    getFitnessDataByYear records year
      = .okRecords (records.filter (fun r => hasPrefixStr r.date year)) := by
  simp [getFitnessDataByYear, appendLoop_eq_filter]

/-- C6 counterexample: the month endpoint matches by parsing each record's
date, not by string prefix: a record dated "2024-01-xx" begins with the
year-month string "2024-01" and so the claim requires it in the response for
year 2024, month 01, but `time.Parse` rejects it and the handler returns the
empty list. -/
theorem C6_counterexample :
    getFitnessDataByMonth [recBadDay] "2024" "01" = .okRecords [] ∧
    yearMonthPrefixed [recBadDay] "2024" "01" = [recBadDay] ∧
    getFitnessDataByMonth [recBadDay] "2024" "01"
      ≠ .okRecords (yearMonthPrefixed [recBadDay] "2024" "01") := by
  refine ⟨by decide, by decide, by decide⟩

/-- C6 amended: GET `/api/fitness/year/{year}/month/{month}` returns exactly
the stored records whose date parses as YYYY-MM-DD and whose parsed year,
printed in decimal, equals the year variable and whose parsed month, zero
padded to two digits, equals the month variable, in stored order; records with
unparseable dates are skipped even when the claimed year-month string prefix
matches. -/
theorem C6_amended_month_endpoint_filters_by_parsed_date (records : List FitnessData)
    (year month : String) :
    getFitnessDataByMonth records year month
      = .okRecords (records.filter (monthMatches year month)) := by
  simp [getFitnessDataByMonth, appendLoop_eq_filter]

set_option maxHeartbeats 2000000 in
/-- C7 counterexample: the year directory is the parsed year printed without
zero padding, not the YYYY segment of the date string: the record dated
"0024-01-05" is saved to "fitness_data/24/01.json", and no file is written at
the claimed path "fitness_data/0024/01.json". -/
theorem C7_counterexample :
    saveData [recYear24] = [("fitness_data/24/01.json", [recYear24])] ∧
    specMonthFilePath recYear24 = "fitness_data/0024/01.json" ∧
    ¬ ∃ f, (specMonthFilePath recYear24, f) ∈ saveData [recYear24] := by
  refine ⟨by decide, by decide, ?_⟩
  rintro ⟨f, hf⟩
  have h1 : saveData [recYear24] = [("fitness_data/24/01.json", [recYear24])] := by decide
  rw [h1, List.mem_singleton, Prod.mk.injEq] at hf
  exact absurd hf.1 (by decide)

/-- C7 amended: saveData writes each record whose date parses as YYYY-MM-DD to
the file `dataDir/<year>/<month>.json` derived from that record's own date,
with the year printed in decimal without zero padding (identical to the YYYY
segment for years at least 1000) and the month zero padded to two digits; that
file holds exactly the stored records of that year and month, in stored order,
and every written file is of this shape. -/
theorem C7_amended_save_partitions_by_date (records : List FitnessData)
    (r : FitnessData) (y m d : Nat) (hr : r ∈ records)
    (hp : parseDate r.date = some (y, m, d)) :
    (monthPath (y, m), records.filter (fun x => decide (dateKey x = some (y, m))))
        ∈ saveData records ∧
    r ∈ records.filter (fun x => decide (dateKey x = some (y, m))) ∧
    ∀ e ∈ saveData records, ∃ k,
      e = (monthPath k, records.filter (fun x => decide (dateKey x = some k))) := by
  have hk : dateKey r = some (y, m) := by simp [dateKey, hp]
  refine ⟨?_, ?_, ?_⟩
  · exact List.mem_map.mpr
      ⟨((y, m), records.filter (fun x => decide (dateKey x = some (y, m)))),
       groupByMonth_mem_of_exists records (y, m) ⟨r, hr, hk⟩, rfl⟩
  · exact List.mem_filter.mpr ⟨hr, by simp [hk]⟩
  · intro e he
    obtain ⟨⟨k, v⟩, hm, rfl⟩ := List.mem_map.mp he
    exact ⟨k, by rw [groupByMonth_mem_eq_filter records k v hm]⟩

set_option maxHeartbeats 2000000 in
/-- C7 amended witness: the January 2024 record lands in
"fitness_data/2024/01.json" on a concrete store. -/
theorem C7_amended_save_partitions_by_date_witness :
    (monthPath (2024, 1),
      [recJan15, recBadDay].filter (fun x => decide (dateKey x = some (2024, 1))))
        ∈ saveData [recJan15, recBadDay] ∧
    recJan15 ∈ [recJan15, recBadDay].filter (fun x => decide (dateKey x = some (2024, 1))) ∧
    ∀ e ∈ saveData [recJan15, recBadDay], ∃ k,
      e = (monthPath k, [recJan15, recBadDay].filter (fun x => decide (dateKey x = some k))) :=
  C7_amended_save_partitions_by_date [recJan15, recBadDay] recJan15 2024 1 15
    (by decide) (by decide)

/-- C8: the GitHub PUT payload carries the `sha` field exactly when the
preceding SHA lookup for the path returned a non-empty SHA, in which case it
carries that SHA; an empty lookup result (first write) omits the field. -/
theorem C8_sha_field_iff_prior_version (token : String)
    (remote : String → Option String) (githubPath : String) (data : List UInt8)
    (payload : GitHubPutPayload)
    (h : updateGitHubFile token remote githubPath data = some payload) :
    (payload.sha.isSome ↔ getGitHubFileSHA remote githubPath ≠ "") ∧
    (getGitHubFileSHA remote githubPath = "" → payload.sha = none) ∧
    (getGitHubFileSHA remote githubPath ≠ "" →
      payload.sha = some (getGitHubFileSHA remote githubPath)) := by
  by_cases ht : token = ""
  · simp [updateGitHubFile, ht] at h
  · simp only [updateGitHubFile, if_neg ht, Option.some.injEq] at h
    subst h
    by_cases hsha : getGitHubFileSHA remote githubPath = ""
    · simp [hsha]
    · simp [hsha]

/-- C8 witness: a remote holding a SHA for the path yields a payload carrying
it. -/
theorem C8_sha_field_iff_prior_version_witness :
    let payload : GitHubPutPayload :=
      { message := "Update p", content := "", sha := some "abc" }
    (payload.sha.isSome ↔ getGitHubFileSHA (fun _ => some "abc") "p" ≠ "") ∧
    (getGitHubFileSHA (fun _ => some "abc") "p" = "" → payload.sha = none) ∧
    (getGitHubFileSHA (fun _ => some "abc") "p" ≠ "" →
      payload.sha = some (getGitHubFileSHA (fun _ => some "abc") "p")) :=
  C8_sha_field_iff_prior_version "t" (fun _ => some "abc") "p" []
    { message := "Update p", content := "", sha := some "abc" } rfl

/-- C9: POST `/api/fitness` never rejects a request: the decode error is
discarded, so a body the decoder fails on stores the zero-valued record, whose
date is the empty string, through the normal upsert path and echoes it back
with a success status; for every decode outcome the response is a success
response echoing the stored record. -/
theorem C9_malformed_body_stored_as_zero (records : List FitnessData) :
    createFitnessData records none
      = (upsertByDate records zeroFitnessData, .okRecord zeroFitnessData) ∧
    zeroFitnessData.date = "" ∧
    ∀ decoded : Option FitnessData, ∃ d : FitnessData,
      (createFitnessData records decoded).2 = .okRecord d :=
  ⟨rfl, rfl, fun decoded => ⟨decoded.getD zeroFitnessData, rfl⟩⟩

/-- C10: saveData silently drops every record whose date does not parse as
YYYY-MM-DD: such a record appears in no written file, while every record with
a parseable date appears in the month file derived from its date. -/
theorem C10_save_drops_unparseable_dates (records : List FitnessData)
    (r : FitnessData) (hr : r ∈ records) :
    (parseDate r.date = none → ∀ p f, (p, f) ∈ saveData records → r ∉ f) ∧
    (∀ y m d, parseDate r.date = some (y, m, d) →
      ∃ f, (monthPath (y, m), f) ∈ saveData records ∧ r ∈ f) := by
  constructor
  · intro hnone p f hpf hrf
    obtain ⟨⟨k, v⟩, hm, he⟩ := List.mem_map.mp hpf
    have hv : f = v := congrArg Prod.snd he.symm
    rw [groupByMonth_mem_eq_filter records k v hm] at hv
    rw [hv] at hrf
    have := (List.mem_filter.mp hrf).2
    simp [dateKey, hnone] at this
  · intro y m d hp
    have hk : dateKey r = some (y, m) := by simp [dateKey, hp]
    refine ⟨records.filter (fun x => decide (dateKey x = some (y, m))), ?_, ?_⟩
    · exact List.mem_map.mpr
        ⟨((y, m), records.filter (fun x => decide (dateKey x = some (y, m)))),
         groupByMonth_mem_of_exists records (y, m) ⟨r, hr, hk⟩, rfl⟩
    · exact List.mem_filter.mpr ⟨hr, by simp [hk]⟩

set_option maxHeartbeats 2000000 in
/-- C10 witness: the record dated "2024-01-xx" is in no written file of a
concrete store, while the January 2024 record is persisted. -/
theorem C10_save_drops_unparseable_dates_witness :
    recBadDay ∉ [recJan15] ∧
    (∃ f, (monthPath (2024, 1), f) ∈ saveData [recJan15, recBadDay] ∧ recJan15 ∈ f) :=
  ⟨(C10_save_drops_unparseable_dates [recJan15, recBadDay] recBadDay (by decide)).1
      (by decide) "fitness_data/2024/01.json" [recJan15] (by decide),
   (C10_save_drops_unparseable_dates [recJan15, recBadDay] recJan15 (by decide)).2
      2024 1 15 (by decide)⟩
